import Mathlib

/-!
Verification of the starlink-coverage core (`src/main.py`).

The development shallowly embeds the coverage engine:
* the geometry kernel (`calcCapAngle`) over the reals, with Python's
  `math.asin` domain check made explicit (`mathAsin`);
* the footprint rasterizer's list geometry (`split_antimeridian_polygon`,
  `np_interp`, ring wrapping and orientation) over the rationals, an exact
  model of the float arithmetic;
* the footprint boundary construction (`footprintPolygon` via geog-style
  `propagate`);
* the coverage accumulator and partitioned driver (`accumulate`,
  `runRange`, `runPartition`);
* the exception control flow of `get_cell_ids_h3` and the main loop
  (`get_cell_ids_h3_flow`, `emptyRegionCheck`).
-/

namespace StarlinkCoverage

/-! ### Geometry kernel (main.py lines 32-92), real-valued model -/

noncomputable section

/-- Function to_deg from main.py: `radians * (180 / math.pi)`. -/
def to_deg (radians : ℝ) : ℝ := radians * (180 / Real.pi)

/-- Function to_rads from main.py: `degrees * (math.pi / 180)`. -/
def to_rads (degrees : ℝ) : ℝ := degrees * (Real.pi / 180)

/-- Constant `RIGHT_ANGLE = to_rads(90)` from main.py. -/
def RIGHT_ANGLE : ℝ := to_rads 90

/-- Constant `R_MEAN = 6378.1` (km) from main.py. -/
def R_MEAN : ℝ := 6378.1

/-- Function `calcCapAngle(altitude, term_angle)` from main.py: returns the cap angle
`lambda_FOV / 2` in radians, where `epsilon = to_rads term_angle`,
`eta_FOV = asin(sin(epsilon + RIGHT_ANGLE) * R_MEAN / (R_MEAN + altitude))` and
`lambda_FOV = 2 * (π - (epsilon + RIGHT_ANGLE + eta_FOV))`. -/
def calcCapAngle (altitude term_angle : ℝ) : ℝ :=
  2 * (Real.pi - (to_rads term_angle + RIGHT_ANGLE +
    Real.arcsin (Real.sin (to_rads term_angle + RIGHT_ANGLE) * R_MEAN / (R_MEAN + altitude)))) / 2

/-- Python's `math.asin`: raises `ValueError` (modelled as `none`) when the
argument is outside `[-1, 1]`, otherwise returns the arcsine. -/
def mathAsin (x : ℝ) : Option ℝ :=
  if -1 ≤ x ∧ x ≤ 1 then some (Real.arcsin x) else none

/-- Function `calcCapAngle` with Python's `math.asin` domain check made explicit:
`none` models the `ValueError` that `math.asin` would raise. -/
def calcCapAngleChecked (altitude term_angle : ℝ) : Option ℝ :=
  match mathAsin (Real.sin (to_rads term_angle + RIGHT_ANGLE) * R_MEAN / (R_MEAN + altitude)) with
  | none => none
  | some eta_FOV =>
      some (2 * (Real.pi - (to_rads term_angle + RIGHT_ANGLE + eta_FOV)) / 2)

end

/-! ### Basic facts about the kernel -/

theorem RIGHT_ANGLE_eq : RIGHT_ANGLE = Real.pi / 2 := by
  unfold RIGHT_ANGLE to_rads; ring

theorem R_MEAN_pos : (0 : ℝ) < R_MEAN := by norm_num [R_MEAN]

/-- Function `calcCapAngle` in closed form: `π/2 − ε_rad − arcsin (K · cos ε_rad)`
with `K = R_MEAN / (R_MEAN + altitude)`. -/
theorem calcCapAngle_eq (altitude term_angle : ℝ) :
    calcCapAngle altitude term_angle =
      Real.pi / 2 - (to_rads term_angle +
        Real.arcsin (R_MEAN / (R_MEAN + altitude) * Real.cos (to_rads term_angle))) := by
  unfold calcCapAngle
  rw [RIGHT_ANGLE_eq]
  rw [show Real.sin (to_rads term_angle + Real.pi / 2) * R_MEAN / (R_MEAN + altitude) =
      R_MEAN / (R_MEAN + altitude) * Real.cos (to_rads term_angle) by
    rw [Real.sin_add_pi_div_two]; ring]
  ring

/-- C2: for every altitude `h > 0` and elevation `ε`, `calcCapAngle`
returns exactly `lambda / 2` where `eta = asin(sin(ε + 90°) · R_MEAN /
(R_MEAN + h))` and `lambda = 2 · (π − (ε + 90° + eta))`, all angles in
radians. -/
theorem calcCapAngle_formula (h ε : ℝ) (hh : 0 < h) :
    calcCapAngle h ε =
      2 * (Real.pi - (to_rads ε + to_rads 90 +
        Real.arcsin (Real.sin (to_rads ε + to_rads 90) * R_MEAN / (R_MEAN + h)))) / 2 := by
  rfl

/-- Witness for C2 at altitude `550`, elevation `35`. -/
theorem calcCapAngle_formula_witness :
    (0 : ℝ) < 550 ∧
      calcCapAngle 550 35 =
        2 * (Real.pi - (to_rads 35 + to_rads 90 +
          Real.arcsin (Real.sin (to_rads 35 + to_rads 90) * R_MEAN / (R_MEAN + 550)))) / 2 :=
  ⟨by norm_num, calcCapAngle_formula 550 35 (by norm_num)⟩

/-- C6 amended: for altitude `0` and
elevation `90°` the asin argument is `sin(180°) = 0`, inside the domain, so
the checked computation does not fail: it returns exactly `0`, a
non-positive cap angle, and no domain error occurs. -/
theorem calcCapAngleChecked_degenerate : calcCapAngleChecked 0 90 = some 0 := by
  have harg : Real.sin (to_rads 90 + RIGHT_ANGLE) * R_MEAN / (R_MEAN + 0) = 0 := by
    rw [show to_rads 90 + RIGHT_ANGLE = Real.pi by rw [RIGHT_ANGLE_eq]; unfold to_rads; ring]
    rw [Real.sin_pi]
    ring
  unfold calcCapAngleChecked mathAsin
  rw [harg]
  rw [if_pos (by norm_num : (-1 : ℝ) ≤ 0 ∧ (0 : ℝ) ≤ 1)]
  rw [Real.arcsin_zero]
  show some (2 * (Real.pi - (to_rads 90 + RIGHT_ANGLE + 0)) / 2) = some 0
  have h2 : 2 * (Real.pi - (to_rads 90 + RIGHT_ANGLE + 0)) / 2 = 0 := by
    rw [RIGHT_ANGLE_eq]; unfold to_rads; ring
  rw [h2]

/-- C6 counterexample: the computation at
altitude `0`, elevation `90°` does **not** raise a domain error. -/
theorem calcCapAngleChecked_degenerate_no_error : calcCapAngleChecked 0 90 ≠ none := by
  rw [calcCapAngleChecked_degenerate]
  intro h
  exact Option.noConfusion h

/-! ### C3: range and monotonicity of the cap angle -/

/-- Derivative of `x ↦ x + arcsin (K · cos x)` at every point, for `0 ≤ K < 1`. -/
theorem hasDerivAt_elevSum (K : ℝ) (hK0 : 0 ≤ K) (hK1 : K < 1) (x : ℝ) :
    HasDerivAt (fun y => y + Real.arcsin (K * Real.cos y))
      (1 + 1 / Real.sqrt (1 - (K * Real.cos x) ^ 2) * (K * -Real.sin x)) x := by
  have hb1 : -1 < K * Real.cos x := by nlinarith [Real.neg_one_le_cos x, Real.cos_le_one x]
  have hb2 : K * Real.cos x < 1 := by nlinarith [Real.neg_one_le_cos x, Real.cos_le_one x]
  have hg : HasDerivAt (fun y => K * Real.cos y) (K * -Real.sin x) x :=
    (Real.hasDerivAt_cos x).const_mul K
  have ha : HasDerivAt Real.arcsin (1 / Real.sqrt (1 - (K * Real.cos x) ^ 2)) (K * Real.cos x) :=
    Real.hasDerivAt_arcsin (ne_of_gt hb1) (ne_of_lt hb2)
  exact (hasDerivAt_id x).add (ha.comp x hg)

/-- The map `x ↦ x + arcsin (K · cos x)` is monotone on `[0, π/2]` when `0 ≤ K < 1`. -/
theorem elevSum_monotoneOn (K : ℝ) (hK0 : 0 ≤ K) (hK1 : K < 1) :
    MonotoneOn (fun y => y + Real.arcsin (K * Real.cos y)) (Set.Icc 0 (Real.pi / 2)) := by
  apply monotoneOn_of_deriv_nonneg (convex_Icc _ _)
  · exact (continuous_id.add
      (Real.continuous_arcsin.comp (continuous_const.mul Real.continuous_cos))).continuousOn
  · intro x _
    exact (hasDerivAt_elevSum K hK0 hK1 x).differentiableAt.differentiableWithinAt
  · intro x hx
    rw [interior_Icc] at hx
    rw [(hasDerivAt_elevSum K hK0 hK1 x).deriv]
    have hcos2 : (K * Real.cos x) ^ 2 ≤ K ^ 2 := by
      nlinarith [Real.cos_sq_le_one x, sq_nonneg K]
    have hlt : (K * Real.cos x) ^ 2 < 1 := by nlinarith
    have hs_pos : 0 < Real.sqrt (1 - (K * Real.cos x) ^ 2) := Real.sqrt_pos.mpr (by linarith)
    have hsin : 0 ≤ Real.sin x :=
      Real.sin_nonneg_of_nonneg_of_le_pi (le_of_lt hx.1) (by linarith [Real.pi_pos, hx.2])
    have hKsin_le : K * Real.sin x ≤ Real.sqrt (1 - (K * Real.cos x) ^ 2) := by
      have h1 : (K * Real.sin x) ^ 2 ≤ 1 - (K * Real.cos x) ^ 2 := by
        nlinarith [Real.sin_sq_add_cos_sq x]
      calc K * Real.sin x = Real.sqrt ((K * Real.sin x) ^ 2) :=
            (Real.sqrt_sq (by positivity)).symm
        _ ≤ Real.sqrt (1 - (K * Real.cos x) ^ 2) := Real.sqrt_le_sqrt h1
    have hdiv : 1 / Real.sqrt (1 - (K * Real.cos x) ^ 2) * (K * Real.sin x) ≤ 1 := by
      rw [div_mul_eq_mul_div, one_mul, div_le_one hs_pos]
      exact hKsin_le
    have hrew : 1 / Real.sqrt (1 - (K * Real.cos x) ^ 2) * (K * -Real.sin x) =
        -(1 / Real.sqrt (1 - (K * Real.cos x) ^ 2) * (K * Real.sin x)) := by ring
    rw [hrew]
    linarith

/-- C3: for altitude `> 0` and elevation in `[0°, 90°)`, `calcCapAngle`
lands in `(0, π/2]`, is non-increasing in elevation for fixed altitude, and
non-decreasing in altitude for fixed elevation. -/
theorem calcCapAngle_range_mono (alt ε : ℝ) (halt : 0 < alt) (hε0 : 0 ≤ ε) (hε90 : ε < 90) :
    (0 < calcCapAngle alt ε ∧ calcCapAngle alt ε ≤ Real.pi / 2) ∧
    (∀ ε₂, ε ≤ ε₂ → ε₂ < 90 → calcCapAngle alt ε₂ ≤ calcCapAngle alt ε) ∧
    (∀ alt₂, alt ≤ alt₂ → calcCapAngle alt ε ≤ calcCapAngle alt₂ ε) := by
  have hπ := Real.pi_pos
  have hrpos : (0 : ℝ) < Real.pi / 180 := by positivity
  have he0 : 0 ≤ to_rads ε := mul_nonneg hε0 (le_of_lt hrpos)
  have he2 : to_rads ε < Real.pi / 2 := by
    have h1 : ε * (Real.pi / 180) < 90 * (Real.pi / 180) :=
      mul_lt_mul_of_pos_right hε90 hrpos
    have h2 : (90 : ℝ) * (Real.pi / 180) = Real.pi / 2 := by ring
    unfold to_rads
    linarith
  have hK0 : 0 < R_MEAN / (R_MEAN + alt) := div_pos R_MEAN_pos (by linarith [R_MEAN_pos])
  have hK1 : R_MEAN / (R_MEAN + alt) < 1 :=
    (div_lt_one (by linarith [R_MEAN_pos])).mpr (by linarith)
  have hcos_pos : 0 < Real.cos (to_rads ε) :=
    Real.cos_pos_of_mem_Ioo ⟨by linarith, he2⟩
  have hcos_le : Real.cos (to_rads ε) ≤ 1 := Real.cos_le_one (to_rads ε)
  refine ⟨⟨?_, ?_⟩, ?_, ?_⟩
  · -- 0 < calcCapAngle alt ε
    rw [calcCapAngle_eq]
    have hlt : R_MEAN / (R_MEAN + alt) * Real.cos (to_rads ε) < Real.cos (to_rads ε) := by
      nlinarith
    have hmem₁ : R_MEAN / (R_MEAN + alt) * Real.cos (to_rads ε) ∈ Set.Icc (-1 : ℝ) 1 :=
      ⟨by nlinarith, by nlinarith⟩
    have hmem₂ : Real.cos (to_rads ε) ∈ Set.Icc (-1 : ℝ) 1 :=
      ⟨by linarith [Real.neg_one_le_cos (to_rads ε)], hcos_le⟩
    have harc_lt : Real.arcsin (R_MEAN / (R_MEAN + alt) * Real.cos (to_rads ε)) <
        Real.arcsin (Real.cos (to_rads ε)) :=
      Real.strictMonoOn_arcsin hmem₁ hmem₂ hlt
    have harc_cos : Real.arcsin (Real.cos (to_rads ε)) = Real.pi / 2 - to_rads ε := by
      rw [← Real.sin_pi_div_two_sub]
      exact Real.arcsin_sin (by linarith) (by linarith)
    linarith
  · -- calcCapAngle alt ε ≤ π/2
    rw [calcCapAngle_eq]
    have harc_nonneg : 0 ≤ Real.arcsin (R_MEAN / (R_MEAN + alt) * Real.cos (to_rads ε)) :=
      Real.arcsin_nonneg.mpr (by positivity)
    linarith
  · -- non-increasing in elevation
    intro ε₂ h12 h90₂
    have he20 : 0 ≤ to_rads ε₂ := mul_nonneg (by linarith) (le_of_lt hrpos)
    have he22 : to_rads ε₂ < Real.pi / 2 := by
      have h1 : ε₂ * (Real.pi / 180) < 90 * (Real.pi / 180) :=
        mul_lt_mul_of_pos_right h90₂ hrpos
      have h2 : (90 : ℝ) * (Real.pi / 180) = Real.pi / 2 := by ring
      unfold to_rads
      linarith
    have hle : to_rads ε ≤ to_rads ε₂ := mul_le_mul_of_nonneg_right h12 (le_of_lt hrpos)
    have hmono := elevSum_monotoneOn (R_MEAN / (R_MEAN + alt)) (le_of_lt hK0) hK1
      (Set.mem_Icc.mpr ⟨he0, by linarith⟩) (Set.mem_Icc.mpr ⟨he20, by linarith⟩) hle
    simp only at hmono
    rw [calcCapAngle_eq, calcCapAngle_eq]
    linarith
  · -- non-decreasing in altitude
    intro alt₂ hle
    have hK2 : R_MEAN / (R_MEAN + alt₂) ≤ R_MEAN / (R_MEAN + alt) := by
      rw [div_le_div_iff (by linarith [R_MEAN_pos]) (by linarith [R_MEAN_pos])]
      nlinarith [R_MEAN_pos]
    have hmul : R_MEAN / (R_MEAN + alt₂) * Real.cos (to_rads ε) ≤
        R_MEAN / (R_MEAN + alt) * Real.cos (to_rads ε) :=
      mul_le_mul_of_nonneg_right hK2 (le_of_lt hcos_pos)
    have harc := Real.monotone_arcsin hmul
    rw [calcCapAngle_eq, calcCapAngle_eq]
    linarith

/-- Witness for C3: concrete instances at altitude `550`/`600` km and
elevation `35°`/`40°`. -/
theorem calcCapAngle_range_mono_witness :
    (0 < calcCapAngle 550 35 ∧ calcCapAngle 550 35 ≤ Real.pi / 2) ∧
    calcCapAngle 550 40 ≤ calcCapAngle 550 35 ∧
    calcCapAngle 550 35 ≤ calcCapAngle 600 35 := by
  refine ⟨?_, ?_, ?_⟩
  · exact (calcCapAngle_range_mono 550 35 (by norm_num) (by norm_num) (by norm_num)).1
  · exact (calcCapAngle_range_mono 550 35 (by norm_num) (by norm_num)
      (by norm_num)).2.1 40 (by norm_num) (by norm_num)
  · exact (calcCapAngle_range_mono 550 35 (by norm_num) (by norm_num)
      (by norm_num)).2.2 600 (by norm_num)

/-! ### Footprint rasterizer list geometry (main.py lines 140-174), exact ℚ model -/

/-- A polygon vertex as in the GeoJSON lists of main.py: `(longitude, latitude)`. -/
abbrev Pt := ℚ × ℚ

/-- Evaluation of `np.interp([x], np.array([x0, x1]), np.array([y0, y1]))[0]` as numpy
computes it for a length-2 abscissa array: the clamp against the *last*
abscissa is checked first, then against the first, then the exact-hit case,
and only then the linear-interpolation formula.  numpy assumes the abscissas
ascend and documents the result as nonsense otherwise; this definition
reproduces the actual branch order of `binary_search_with_guess`. -/
def np_interp (x x0 x1 y0 y1 : ℚ) : ℚ :=
  if x1 < x then y1
  else if x < x0 then y0
  else if x = x1 then y1
  else y0 + (y1 - y0) / (x1 - x0) * (x - x0)

/-- One iteration of the edge walk in `split_antimeridian_polygon`
(`first = polygon[idx]`, `second = polygon[idx+1]`), updating the pair
`(poly1, poly2)`. -/
def splitStep (acc : List Pt × List Pt) : Pt × Pt → List Pt × List Pt
  | (first, second) =>
    if (first.1 < 180 ∧ 180 < second.1) ∨ (180 < first.1 ∧ second.1 < 180) then
      (acc.1 ++ [(180, np_interp 180 first.1 second.1 first.2 second.2)],
       acc.2 ++ [(180, np_interp 180 first.1 second.1 first.2 second.2)])
    else if first.1 < 180 then
      (acc.1 ++ [first], acc.2)
    else
      (acc.1, acc.2 ++ [first])

/-- The consecutive vertex pairs visited by `for idx in range(len(polygon)-1)`. -/
def splitPairs (polygon : List Pt) : List (Pt × Pt) := polygon.zip polygon.tail

/-- The `(poly1, poly2)` accumulation loop of `split_antimeridian_polygon`. -/
def splitAccum (polygon : List Pt) : List Pt × List Pt :=
  (splitPairs polygon).foldl splitStep ([], [])

/-- Remap `[-180 + (point[0]-180), point[1]]`: longitude remap of the over-180 ring. -/
def wrapPoint (p : Pt) : Pt := (-180 + (p.1 - 180), p.2)

/-- Twice the signed (shoelace) area of a coordinate ring, as shapely uses to
decide counter-clockwise orientation. -/
def shoelace (ring : List Pt) : ℚ :=
  ((ring.zip ring.tail).map (fun e => e.1.1 * e.2.2 - e.2.1 * e.1.2)).sum

/-- Model of `shapely.geometry.polygon.orient(Polygon(ring), 1.0)` on the exterior
ring: keep the ring if its signed area is positive (counter-clockwise),
otherwise reverse it. -/
def orientCCW (ring : List Pt) : List Pt :=
  if 0 < shoelace ring then ring else ring.reverse

/-- Function `split_antimeridian_polygon` from main.py.  `none` models the uncaught
`IndexError` of `poly1[0]`/`poly2[0]` when a side ends up empty; otherwise
the result is the closed below-180 ring and the closed, wrapped,
CCW-oriented over-180 ring (the two returned GeoJSON mappings). -/
def split_antimeridian_polygon (polygon : List Pt) : Option (List Pt × List Pt) :=
  match splitAccum polygon with
  | (h1 :: t1, h2 :: t2) =>
      some ((h1 :: t1) ++ [h1], orientCCW (((h2 :: t2) ++ [h2]).map wrapPoint))
  | _ => none

/-! ### C5 / C10: behaviour of the antimeridian split -/

theorem np_interp_asc (x0 x1 y0 y1 : ℚ) (h0 : x0 < 180) (h1 : 180 < x1) :
    np_interp 180 x0 x1 y0 y1 = y0 + (y1 - y0) / (x1 - x0) * (180 - x0) := by
  unfold np_interp
  rw [if_neg (by linarith), if_neg (by linarith), if_neg (ne_of_lt h1)]

theorem np_interp_desc (x0 x1 y0 y1 : ℚ) (h0 : 180 < x0) (h1 : x1 < 180) :
    np_interp 180 x0 x1 y0 y1 = y1 := by
  unfold np_interp
  rw [if_pos h1]

/-- C5 counterexample: on the closed ring `[(170,0), (190,10), (170,0)]`
the second (descending) antimeridian crossing is inserted with latitude `0`
— the latitude of its second endpoint, produced by numpy's clamp — whereas
linear interpolation of the crossing from the two vertices gives `5`. -/
theorem split_antimeridian_not_interpolated :
    split_antimeridian_polygon [(170, 0), (190, 10), (170, 0)] =
      some ([(180, 5), (180, 0), (180, 5)], [(-180, 5), (-180, 0), (-180, 5)]) ∧
    np_interp 180 190 170 10 0 ≠ 10 + (0 - 10) / (170 - 190) * (180 - 190) := by
  constructor
  · norm_num [split_antimeridian_polygon, splitAccum, splitPairs, splitStep, np_interp,
      wrapPoint, orientCCW, shoelace]
  · norm_num [np_interp]

/-- Closed rings stay closed (first = last) under `orientCCW`. -/
theorem orientCCW_closed (a : Pt) (l : List Pt) :
    (orientCCW ((a :: l) ++ [a])).head? = (orientCCW ((a :: l) ++ [a])).getLast? := by
  have hgl : ((a :: l) ++ [a]).getLast? = some a := List.getLast?_concat _
  have hhd : ((a :: l) ++ [a]).head? = some a := by rw [List.cons_append]; rfl
  unfold orientCCW
  by_cases hsl : 0 < shoelace ((a :: l) ++ [a])
  · rw [if_pos hsl, hgl, hhd]
  · rw [if_neg hsl, List.head?_reverse, List.getLast?_reverse, hgl, hhd]

/-- C5 amended: the split walks the ring edge by edge.  An *ascending*
crossing (`first.lon < 180 < second.lon`) inserts into both rings a point at
longitude 180 whose latitude is linearly interpolated from the two vertices;
a *descending* crossing (`first.lon > 180 > second.lon`) inserts a point at
longitude 180 whose latitude is the **second vertex's latitude** (numpy's
out-of-order clamp), not the interpolated one.  A vertex beginning a
non-crossing edge goes to ring A if its longitude is `< 180` and to ring B
otherwise (a vertex beginning a crossing edge is dropped).  Each output ring
is closed back to its own first vertex; ring B is remapped by subtracting
360° from longitudes and re-oriented to counter-clockwise winding. -/
theorem split_antimeridian_characterisation :
    (∀ (acc : List Pt × List Pt) (f s : Pt), f.1 < 180 → 180 < s.1 →
        splitStep acc (f, s) =
          (acc.1 ++ [(180, f.2 + (s.2 - f.2) / (s.1 - f.1) * (180 - f.1))],
           acc.2 ++ [(180, f.2 + (s.2 - f.2) / (s.1 - f.1) * (180 - f.1))])) ∧
    (∀ (acc : List Pt × List Pt) (f s : Pt), 180 < f.1 → s.1 < 180 →
        splitStep acc (f, s) = (acc.1 ++ [(180, s.2)], acc.2 ++ [(180, s.2)])) ∧
    (∀ (acc : List Pt × List Pt) (f s : Pt),
        ¬((f.1 < 180 ∧ 180 < s.1) ∨ (180 < f.1 ∧ s.1 < 180)) → f.1 < 180 →
        splitStep acc (f, s) = (acc.1 ++ [f], acc.2)) ∧
    (∀ (acc : List Pt × List Pt) (f s : Pt),
        ¬((f.1 < 180 ∧ 180 < s.1) ∨ (180 < f.1 ∧ s.1 < 180)) → ¬(f.1 < 180) →
        splitStep acc (f, s) = (acc.1, acc.2 ++ [f])) ∧
    (∀ p : Pt, wrapPoint p = (p.1 - 360, p.2)) ∧
    (∀ (polygon : List Pt) (pA pB : List Pt),
        split_antimeridian_polygon polygon = some (pA, pB) →
        pA.head? = pA.getLast? ∧ pB.head? = pB.getLast? ∧
        ∃ h2 t2, (splitAccum polygon).2 = h2 :: t2 ∧
          pB = orientCCW (((h2 :: t2) ++ [h2]).map wrapPoint)) := by
  refine ⟨?_, ?_, ?_, ?_, ?_, ?_⟩
  · intro acc f s h0 h1
    dsimp only [splitStep]
    rw [if_pos (Or.inl ⟨h0, h1⟩), np_interp_asc f.1 s.1 f.2 s.2 h0 h1]
  · intro acc f s h0 h1
    dsimp only [splitStep]
    rw [if_pos (Or.inr ⟨h0, h1⟩), np_interp_desc f.1 s.1 f.2 s.2 h0 h1]
  · intro acc f s hnc hlt
    dsimp only [splitStep]
    rw [if_neg hnc, if_pos hlt]
  · intro acc f s hnc hge
    dsimp only [splitStep]
    rw [if_neg hnc, if_neg hge]
  · intro p
    unfold wrapPoint
    rw [show (-180 : ℚ) + (p.1 - 180) = p.1 - 360 by ring]
  · intro polygon pA pB h
    unfold split_antimeridian_polygon at h
    rcases hacc : splitAccum polygon with ⟨l1, l2⟩
    rw [hacc] at h
    cases l1 with
    | nil => exact Option.noConfusion h
    | cons h1 t1 =>
      cases l2 with
      | nil => exact Option.noConfusion h
      | cons h2 t2 =>
        have h' : ((h1 :: t1) ++ [h1], orientCCW (((h2 :: t2) ++ [h2]).map wrapPoint)) =
            (pA, pB) := Option.some_inj.mp h
        have hA : (h1 :: t1) ++ [h1] = pA := congrArg Prod.fst h'
        have hB : orientCCW (((h2 :: t2) ++ [h2]).map wrapPoint) = pB := congrArg Prod.snd h'
        refine ⟨?_, ?_, h2, t2, rfl, hB.symm⟩
        · rw [← hA, List.getLast?_concat, List.cons_append]
          rfl
        · rw [← hB]
          have hmap : ((h2 :: t2) ++ [h2]).map wrapPoint =
              (wrapPoint h2 :: t2.map wrapPoint) ++ [wrapPoint h2] := by
            simp
          rw [hmap]
          exact orientCCW_closed (wrapPoint h2) (t2.map wrapPoint)

/-- Witness for the amended C5: a concrete descending crossing gets the
second endpoint's latitude. -/
theorem split_antimeridian_characterisation_witness :
    splitStep (([] : List Pt), ([] : List Pt)) ((190, 10), (170, 0)) =
      (([] : List Pt) ++ [((180 : ℚ), (0 : ℚ))], ([] : List Pt) ++ [((180 : ℚ), (0 : ℚ))]) :=
  split_antimeridian_characterisation.2.1 ([], []) (190, 10) (170, 0)
    (by norm_num) (by norm_num)

/-- C10: a vertex at longitude exactly 180° starts no crossing edge (the
straddle test is strict), is assigned to ring B, never to ring A (ring A
needs longitude strictly below 180), and the remap sends longitude 180 to
exactly −180. -/
theorem vertex_at_180 :
    (∀ (acc : List Pt × List Pt) (f s : Pt), f.1 = 180 →
        splitStep acc (f, s) = (acc.1, acc.2 ++ [f])) ∧
    (∀ (acc : List Pt × List Pt) (f s : Pt), s.1 = 180 →
        splitStep acc (f, s) =
          if f.1 < 180 then (acc.1 ++ [f], acc.2) else (acc.1, acc.2 ++ [f])) ∧
    (∀ y : ℚ, wrapPoint (180, y) = (-180, y)) := by
  refine ⟨?_, ?_, ?_⟩
  · intro acc f s h
    dsimp only [splitStep]
    rw [if_neg (by rw [h]; rintro (⟨hlt, _⟩ | ⟨hlt, _⟩) <;> exact lt_irrefl _ hlt)]
    rw [if_neg (by rw [h]; exact lt_irrefl 180)]
  · intro acc f s h
    dsimp only [splitStep]
    rw [if_neg (by rw [h]; rintro (⟨_, hlt⟩ | ⟨_, hlt⟩) <;> exact lt_irrefl _ hlt)]
  · intro y
    unfold wrapPoint
    norm_num

/-- Witness for C10 at the vertex `(180, 5)`. -/
theorem vertex_at_180_witness :
    splitStep (([] : List Pt), ([] : List Pt)) ((180, 5), (170, 0)) =
      (([] : List Pt), ([] : List Pt) ++ [((180 : ℚ), (5 : ℚ))]) :=
  vertex_at_180.1 ([], []) (180, 5) (170, 0) rfl

/-! ### Coverage accumulator and partitioned driver (main.py lines 256, 273-291) -/

section Accumulator

variable {Cell : Type} [DecidableEq Cell]

/-- Accumulation `for cell in coverage_set: coverage[cell] += 1` — the histogram is a
`defaultdict(int)`, modelled as a total function with default value `0`. -/
def accumulate (hist : Cell → ℕ) (s : Finset Cell) : Cell → ℕ :=
  fun c => if c ∈ s then hist c + 1 else hist c

/-- The per-step `coverage_set`: the union of all satellites' cell sets,
built by `for cell in cells: coverage_set.add(cell)` over each satellite. -/
def stepUnion (cellSets : List (Finset Cell)) : Finset Cell :=
  cellSets.foldl (fun acc s => acc ∪ s) ∅

/-- The main loop `for i in range(TIME_PER_PROCESS)`: starting at step
`start`, run `len` steps, accumulating each step's union cell set. -/
def runRange (stepSet : ℕ → Finset Cell) : ℕ → ℕ → (Cell → ℕ) → (Cell → ℕ)
  | _, 0, hist => hist
  | start, Nat.succ n, hist => runRange stepSet (start + 1) n (accumulate hist (stepSet start))

/-- Constant `TIME_PER_PROCESS = 1440 // 4` from main.py. -/
def TIME_PER_PROCESS : ℕ := 1440 / 4

/-- Constant `START_TIME = process * TIME_PER_PROCESS` from main.py. -/
def START_TIME (process : ℕ) : ℕ := process * TIME_PER_PROCESS

/-- One partition's run: `TIME_PER_PROCESS` steps starting at `START_TIME`,
from the empty (all-zero) histogram. -/
def runPartition (stepSet : ℕ → Finset Cell) (process : ℕ) : Cell → ℕ :=
  runRange stepSet (START_TIME process) TIME_PER_PROCESS (fun _ => 0)

/-- A run counts, per cell, the steps whose union set contains the cell. -/
theorem runRange_count (stepSet : ℕ → Finset Cell) :
    ∀ (len start : ℕ) (hist : Cell → ℕ) (c : Cell),
      runRange stepSet start len hist c =
        hist c + ∑ i ∈ Finset.range len, (if c ∈ stepSet (start + i) then 1 else 0) := by
  intro len
  induction len with
  | zero =>
    intro start hist c
    simp [runRange]
  | succ n ih =>
    intro start hist c
    rw [runRange, ih (start + 1) (accumulate hist (stepSet start)) c,
      Finset.sum_range_succ']
    have hsum : ∑ i ∈ Finset.range n, (if c ∈ stepSet (start + 1 + i) then 1 else 0) =
        ∑ i ∈ Finset.range n, (if c ∈ stepSet (start + (i + 1)) then 1 else 0) :=
      Finset.sum_congr rfl (fun i _ => by rw [show start + 1 + i = start + (i + 1) by omega])
    rw [hsum]
    unfold accumulate
    simp only [Nat.add_zero]
    by_cases hc : c ∈ stepSet start
    · rw [if_pos hc, if_pos hc]
      ring
    · rw [if_neg hc, if_neg hc]
      ring

end Accumulator

/-- C1: `accumulate` raises every cell of the per-step union set by
exactly 1 (missing histogram keys read as 0), no cell rises by more than 1
per step however many satellites cover it, and a cell in every step's union
set of an `N`-step run ends with count exactly `N`. -/
theorem coverage_histogram_invariant {Cell : Type} [DecidableEq Cell]
    (stepSet : ℕ → Finset Cell) :
    (∀ (hist : Cell → ℕ) (s : Finset Cell) (c : Cell),
        accumulate hist s c = hist c + (if c ∈ s then 1 else 0)) ∧
    (∀ (hist : Cell → ℕ) (s : Finset Cell) (c : Cell),
        accumulate hist s c ≤ hist c + 1) ∧
    (∀ (hist : Cell → ℕ) (cellSets : List (Finset Cell)) (c : Cell),
        c ∈ stepUnion cellSets →
        accumulate hist (stepUnion cellSets) c = hist c + 1) ∧
    (∀ (start n : ℕ) (c : Cell),
        (∀ i ∈ Finset.Ico start (start + n), c ∈ stepSet i) →
        runRange stepSet start n (fun _ => 0) c = n) := by
  refine ⟨?_, ?_, ?_, ?_⟩
  · intro hist s c
    unfold accumulate
    by_cases hc : c ∈ s
    · rw [if_pos hc, if_pos hc]
    · rw [if_neg hc, if_neg hc, Nat.add_zero]
  · intro hist s c
    unfold accumulate
    by_cases hc : c ∈ s
    · rw [if_pos hc]
    · rw [if_neg hc]
      exact Nat.le_succ _
  · intro hist cellSets c hc
    unfold accumulate
    rw [if_pos hc]
  · intro start n c h
    rw [runRange_count]
    have hone : ∀ i ∈ Finset.range n, (if c ∈ stepSet (start + i) then 1 else 0) = 1 := by
      intro i hi
      exact if_pos (h _ (Finset.mem_Ico.mpr
        ⟨Nat.le_add_right _ _, Nat.add_lt_add_left (Finset.mem_range.mp hi) start⟩))
    rw [Finset.sum_congr rfl hone, Finset.sum_const, smul_eq_mul, mul_one,
      Finset.card_range]
    simp

/-- Witness for C1: a cell covered in all 5 steps of a 5-step run ends at 5. -/
theorem coverage_histogram_invariant_witness :
    runRange (fun _ => ({0} : Finset ℕ)) 0 5 (fun _ => 0) 0 = 5 :=
  (coverage_histogram_invariant (fun _ => ({0} : Finset ℕ))).2.2.2 0 5 0 (by decide)

/-- C4: partition `p` simulates exactly the half-open step range
`[p·(1440/4), (p+1)·(1440/4))`; distinct partitions' ranges are disjoint and
the four ranges cover `[0, 1440)` exactly; for any fixed deterministic
per-step cell provider, the cell-by-cell sum of the four partitions'
histograms equals the histogram of one full 1440-step run. -/
theorem partition_roundtrip {Cell : Type} [DecidableEq Cell] (stepSet : ℕ → Finset Cell) :
    (∀ (p : ℕ) (c : Cell),
        runPartition stepSet p c =
          ∑ i ∈ Finset.Ico (p * (1440 / 4)) ((p + 1) * (1440 / 4)),
            (if c ∈ stepSet i then 1 else 0)) ∧
    (∀ p q : ℕ, p ≠ q →
        Disjoint (Finset.Ico (p * (1440 / 4)) ((p + 1) * (1440 / 4)))
          (Finset.Ico (q * (1440 / 4)) ((q + 1) * (1440 / 4)))) ∧
    ((Finset.range 4).biUnion
        (fun p => Finset.Ico (p * (1440 / 4)) ((p + 1) * (1440 / 4))) =
      Finset.Ico 0 1440) ∧
    (∀ c : Cell,
        ∑ p ∈ Finset.range 4, runPartition stepSet p c =
          runRange stepSet 0 1440 (fun _ => 0) c) := by
  have h4 : (1440 : ℕ) / 4 = 360 := by norm_num
  have hpart : ∀ (p : ℕ) (c : Cell),
      runPartition stepSet p c =
        ∑ i ∈ Finset.Ico (p * 360) ((p + 1) * 360), (if c ∈ stepSet i then 1 else 0) := by
    intro p c
    unfold runPartition START_TIME TIME_PER_PROCESS
    rw [runRange_count, Finset.sum_Ico_eq_sum_range]
    rw [show (p + 1) * 360 - p * 360 = 360 by ring_nf; omega]
    simp [h4]
  refine ⟨?_, ?_, ?_, ?_⟩
  · intro p c
    rw [h4]
    exact hpart p c
  · intro p q hne
    rw [Finset.disjoint_left]
    intro a ha hb
    rw [Finset.mem_Ico] at ha hb
    rw [h4] at ha hb
    rcases Nat.lt_or_ge p q with hlt | hge
    · have : (p + 1) * 360 ≤ q * 360 := Nat.mul_le_mul_right _ hlt
      omega
    · have hqp : q < p ∨ q = p := by omega
      rcases hqp with hlt | rfl
      · have : (q + 1) * 360 ≤ p * 360 := Nat.mul_le_mul_right _ hlt
        omega
      · exact hne rfl
  · ext i
    simp only [Finset.mem_biUnion, Finset.mem_range, Finset.mem_Ico, h4]
    constructor
    · rintro ⟨p, hp, h1, h2⟩
      have : (p + 1) * 360 ≤ 4 * 360 := Nat.mul_le_mul_right _ hp
      omega
    · intro hi
      refine ⟨i / 360, by omega, by omega, by omega⟩
  · intro c
    rw [Finset.sum_range_succ, Finset.sum_range_succ, Finset.sum_range_succ,
      Finset.sum_range_one]
    rw [hpart 0 c, hpart 1 c, hpart 2 c, hpart 3 c]
    simp only [show (0 * 360 : ℕ) = 0 by norm_num, show ((0 + 1) * 360 : ℕ) = 360 by norm_num,
      show (1 * 360 : ℕ) = 360 by norm_num, show ((1 + 1) * 360 : ℕ) = 720 by norm_num,
      show (2 * 360 : ℕ) = 720 by norm_num, show ((2 + 1) * 360 : ℕ) = 1080 by norm_num,
      show (3 * 360 : ℕ) = 1080 by norm_num, show ((3 + 1) * 360 : ℕ) = 1440 by norm_num]
    rw [Finset.sum_Ico_consecutive _ (by norm_num) (by norm_num),
      Finset.sum_Ico_consecutive _ (by norm_num) (by norm_num),
      Finset.sum_Ico_consecutive _ (by norm_num) (by norm_num)]
    rw [runRange_count, Finset.sum_Ico_eq_sum_range]
    simp only [Nat.sub_zero, Nat.zero_add]

/-- Witness for C4: disjointness of partitions 0 and 1, and the round-trip
sum for a concrete provider. -/
theorem partition_roundtrip_witness :
    Disjoint (Finset.Ico (0 * (1440 / 4)) ((0 + 1) * (1440 / 4)))
      (Finset.Ico (1 * (1440 / 4)) ((1 + 1) * (1440 / 4))) ∧
    (∑ p ∈ Finset.range 4, runPartition (fun _ => ({0} : Finset ℕ)) p 0 =
      runRange (fun _ => ({0} : Finset ℕ)) 0 1440 (fun _ => 0) 0) :=
  ⟨(partition_roundtrip (fun _ => ({0} : Finset ℕ))).2.1 0 1 (by norm_num),
   (partition_roundtrip (fun _ => ({0} : Finset ℕ))).2.2.2 0⟩

/-! ### Exception control flow of `get_cell_ids_h3` (main.py lines 177-211) -/

/-- The exception control flow of `get_cell_ids_h3` after the boundary
polygon has been computed.  `mkMapping` models
`shapely.geometry.mapping(shapely.geometry.Polygon(polygon))` (`none` = the
`ValueError` that the source catches and prints, leaving the local variable
`mapping` unbound); `polyfill` models `h3.polyfill` (`none` = an exception).
In the antimeridian-split branch everything runs inside a bare `except:`,
so a failure leaves `cells` with whatever updates had committed; in the
non-split branch `h3.polyfill(mapping, ...)` runs outside any handler, so a
`polyfill` failure — or the `NameError` from the unbound `mapping` after a
caught construction failure — propagates and aborts (`Except.error`). -/
def get_cell_ids_h3_flow {Cell : Type} [DecidableEq Cell]
    (mkMapping : List Pt → Option (List Pt))
    (polyfill : List Pt → Option (Finset Cell))
    (polygon : List Pt) : Except (List Pt) (Finset Cell) :=
  if polygon.any (fun point => 180 < point.1) then
    Except.ok
      (match split_antimeridian_polygon polygon with
       | none => ∅
       | some (first, second) =>
         match polyfill first with
         | none => ∅
         | some c1 =>
           match polyfill second with
           | none => c1
           | some c2 => c1 ∪ c2)
  else
    match mkMapping polygon with
    | none => Except.error polygon
    | some mapping =>
      match polyfill mapping with
      | none => Except.error polygon
      | some cells => Except.ok cells

/-- C7 evaluation: split-path failures are recovered as an empty cell
set, but in the non-split path a polygon-construction failure (caught, then
`mapping` used while unbound) or a fill failure aborts instead of being
recovered — contradicting "no rasterization failure ever aborts the loop". -/
theorem get_cell_ids_h3_flow_aborts :
    (get_cell_ids_h3_flow (fun _ => none) (fun _ => some ({7} : Finset ℕ))
        [(0, 0), (1, 0), (0, 1)] = Except.error [(0, 0), (1, 0), (0, 1)]) ∧
    (get_cell_ids_h3_flow (fun q => some q) (fun _ => (none : Option (Finset ℕ)))
        [(0, 0), (1, 0), (0, 1)] = Except.error [(0, 0), (1, 0), (0, 1)]) ∧
    (get_cell_ids_h3_flow (fun q => some q) (fun _ => (none : Option (Finset ℕ)))
        [(0, 0), (190, 0), (0, 1)] = Except.ok ∅) := by
  refine ⟨?_, ?_, ?_⟩
  · norm_num [get_cell_ids_h3_flow]
  · norm_num [get_cell_ids_h3_flow]
  · norm_num [get_cell_ids_h3_flow, split_antimeridian_polygon, splitAccum, splitPairs,
      splitStep, np_interp, wrapPoint, orientCCW, shoelace]

/-! ### The empty-region check of the main loop (main.py lines 286-287) -/

/-- The `if len(cells) == 0:` check of the main loop.  Its body is the bare
expression statement `Exception("empty region returned")`: the exception
object is constructed and immediately discarded — nothing is raised and
nothing is logged.  The result is the list of events the check surfaces. -/
def emptyRegionCheck {Cell : Type} [DecidableEq Cell] (cells : Finset Cell) : List String :=
  if cells = ∅ then
    [] -- `Exception("empty region returned")` is evaluated and dropped
  else []

/-- One simulated step over the satellite list: union each satellite's cell
set into `coverage_set`, collecting whatever events the per-satellite
empty-region check surfaces. -/
def stepProcess {Cell : Type} [DecidableEq Cell]
    (cellsOf : String → Finset Cell) (sats : List String) : Finset Cell × List String :=
  sats.foldl
    (fun acc name => (acc.1 ∪ cellsOf name, acc.2 ++ emptyRegionCheck (cellsOf name)))
    (∅, [])

/-- C8 evaluation: a satellite whose rasterization returns the empty
cell set surfaces no event at all — the condition is silently swallowed,
not raised or logged. -/
theorem emptyRegion_silently_swallowed :
    emptyRegionCheck (∅ : Finset ℕ) = [] ∧
    stepProcess (fun _ => (∅ : Finset ℕ)) ["STARLINK-1284"] = (∅, []) := by
  constructor
  · rfl
  · simp [stepProcess, emptyRegionCheck]

/-! ### Footprint boundary construction (main.py lines 177-186), real model -/

noncomputable section

/-- Constant: geog's mean Earth radius in meters (the exact constant is immaterial to
the statements proved here). -/
def EARTH_MEAN_RADIUS : ℝ := 6371008.8

/-- Model of numpy's `arctan2 y x`, the argument of the complex number `x + i·y`. -/
def atan2 (y x : ℝ) : ℝ := Complex.arg ⟨x, y⟩

/-- Destination latitude (radians) of `geog.propagate`:
`arcsin(sin lat1 · cos r + cos lat1 · sin r · cos bearing)`. -/
def destLat (lat1 b r : ℝ) : ℝ :=
  Real.arcsin (Real.sin lat1 * Real.cos r + Real.cos lat1 * Real.sin r * Real.cos b)

/-- Model of `geog.propagate(p, angle, d)` for a single point `p = (lon, lat)` in
degrees, bearing `angle` in degrees and distance `d` in meters: the
standard spherical destination-point formula, returning `(lon2, lat2)` in
degrees. -/
def propagate (p : ℝ × ℝ) (angleDeg d : ℝ) : ℝ × ℝ :=
  (to_deg (to_rads p.1 +
      atan2 (Real.sin (to_rads angleDeg) * Real.sin (d / EARTH_MEAN_RADIUS) *
          Real.cos (to_rads p.2))
        (Real.cos (d / EARTH_MEAN_RADIUS) -
          Real.sin (to_rads p.2) *
            Real.sin (destLat (to_rads p.2) (to_rads angleDeg) (d / EARTH_MEAN_RADIUS)))),
   to_deg (destLat (to_rads p.2) (to_rads angleDeg) (d / EARTH_MEAN_RADIUS)))

/-- Bearing list `np.linspace(0, 360, 20)`: twenty values `i · (360/19)`, `i = 0, …, 19`,
both endpoints included. -/
def linspace360 : List ℝ := (List.range 20).map (fun i : ℕ => (i : ℝ) * (360 / 19))

/-- The boundary ring built by `get_cell_ids_h3`: propagate the center
`(lng, lat)` by `d = R_MEAN * angle * 1000` meters (the cap's arc length
`R_MEAN · angle` km converted to meters) along each bearing of
`np.linspace(0, 360, 20)`. -/
def footprintPolygon (lat lng angle : ℝ) : List (ℝ × ℝ) :=
  linspace360.map (fun a => propagate (lng, lat) a (R_MEAN * angle * 1000))

end

/-- Bearings 0° and 360° propagate to the same point. -/
theorem propagate_period (p : ℝ × ℝ) (d : ℝ) : propagate p 360 d = propagate p 0 d := by
  have h360 : to_rads 360 = 2 * Real.pi := by unfold to_rads; ring
  have h0 : to_rads 0 = 0 := by unfold to_rads; ring
  unfold propagate destLat
  rw [h360, h0, Real.sin_two_pi, Real.cos_two_pi, Real.sin_zero, Real.cos_zero]

/-- C9: for every `(lat, lng, halfAngle)` the rasterizer's boundary is a
ring of 20 vertices with first vertex equal to the last, vertex `i` being
the center propagated by `R_MEAN · halfAngle` km converted to meters along
bearing `i · (360/19)`, the bearings being the 20 evenly spaced values of
`np.linspace(0, 360, 20)`. -/
theorem footprint_ring (lat lng angle : ℝ) :
    (footprintPolygon lat lng angle).length = 20 ∧
    (footprintPolygon lat lng angle).head? = (footprintPolygon lat lng angle).getLast? ∧
    (∀ i : ℕ, i < 20 → (footprintPolygon lat lng angle)[i]? =
        some (propagate (lng, lat) ((i : ℝ) * (360 / 19)) (R_MEAN * angle * 1000))) ∧
    (∀ i : ℕ, i < 20 → linspace360[i]? = some ((i : ℝ) * (360 / 19))) := by
  have hbearing : ∀ i : ℕ, i < 20 → linspace360[i]? = some ((i : ℝ) * (360 / 19)) := by
    intro i hi
    unfold linspace360
    rw [List.getElem?_map, List.getElem?_range hi, Option.map_some']
  have hvertex : ∀ i : ℕ, i < 20 → (footprintPolygon lat lng angle)[i]? =
      some (propagate (lng, lat) ((i : ℝ) * (360 / 19)) (R_MEAN * angle * 1000)) := by
    intro i hi
    unfold footprintPolygon
    rw [List.getElem?_map, hbearing i hi, Option.map_some']
  have hlen : (footprintPolygon lat lng angle).length = 20 := by
    unfold footprintPolygon linspace360
    rw [List.length_map, List.length_map, List.length_range]
  refine ⟨hlen, ?_, hvertex, hbearing⟩
  rw [List.head?_eq_getElem?, List.getLast?_eq_getElem?, hlen]
  rw [hvertex 0 (by norm_num), hvertex (20 - 1) (by norm_num)]
  rw [show (((0 : ℕ) : ℝ) * (360 / 19)) = 0 by norm_num,
    show (((20 - 1 : ℕ) : ℝ) * (360 / 19)) = 360 by norm_num]
  rw [propagate_period]

/-- Witness for C9: the fourth vertex at `lat = 0`, `lng = 0`, `angle = 1`. -/
theorem footprint_ring_witness :
    (footprintPolygon 0 0 1)[3]? =
      some (propagate (0, 0) (((3 : ℕ) : ℝ) * (360 / 19)) (R_MEAN * 1 * 1000)) ∧
    linspace360[3]? = some (((3 : ℕ) : ℝ) * (360 / 19)) :=
  ⟨(footprint_ring 0 0 1).2.2.1 3 (by norm_num),
   (footprint_ring 0 0 1).2.2.2 3 (by norm_num)⟩

end StarlinkCoverage
